import Mathlib

/-!
Verification development for the context resolver of the agent-browse
repository.  The repository ships two variants of a `ContextResolver`
class: a single-tenant variant (resolving URL paths directly against an
`instructions/` tree) and a multi-tenant variant (which first matches the
URL's hostname against per-instruction-set domain patterns declared in
`_config.json` files, then walks the matched subtree).

The embedding below models strings as lists of characters (`Str`), the
file store as an abstract structure `FS` recording which paths exist as
directories, which exist as files (with optionally-readable raw
contents), and the directory-listing result for the store root.  Paths
are lists of path segments relative to the resolver's plugin root; the
resolver's `instructionsDir` is treated as a single leading segment.
Stateful pieces (the URL -> result cache, the memoized config map) are
modelled by explicit state passing.  Node's `path.join` is modelled as
list append of segments (no `..`/`.` normalization; no claim below
depends on such inputs).  JavaScript truthiness of a string value is the
string being non-empty; `readFileSync` failures (unreadable entries,
reads of directories) are modelled by files carrying `Option` contents
and by reads of non-file paths returning `none`, matching the source's
`try/catch` blocks that swallow read errors.
-/

namespace AgentBrowse

/-- Strings of the resolver model: lists of characters. -/
abbrev Str := List Char

/-- Embed a Lean string literal into the model. -/
def str (s : String) : Str := s.data

/-- The set of characters trimmed by JavaScript's `String.prototype.trim`:
WhiteSpace (tab, VT, FF, space, NBSP, ZWNBSP, Unicode Zs) and
LineTerminator (LF, CR, LS, PS) code points. -/
def jsWhitespaceChars : List Char :=
  [Char.ofNat 0x9, Char.ofNat 0xA, Char.ofNat 0xB, Char.ofNat 0xC,
   Char.ofNat 0xD, Char.ofNat 0x20, Char.ofNat 0xA0, Char.ofNat 0x1680,
   Char.ofNat 0x2000, Char.ofNat 0x2001, Char.ofNat 0x2002, Char.ofNat 0x2003,
   Char.ofNat 0x2004, Char.ofNat 0x2005, Char.ofNat 0x2006, Char.ofNat 0x2007,
   Char.ofNat 0x2008, Char.ofNat 0x2009, Char.ofNat 0x200A, Char.ofNat 0x2028,
   Char.ofNat 0x2029, Char.ofNat 0x202F, Char.ofNat 0x205F, Char.ofNat 0x3000,
   Char.ofNat 0xFEFF]

/-- Whether a character is JavaScript whitespace (see `jsWhitespaceChars`). -/
def isJSWhitespace (c : Char) : Bool := jsWhitespaceChars.contains c

/-- Model of JavaScript `s.trim()`: drop whitespace from both ends. -/
def trim (s : Str) : Str :=
  ((s.dropWhile isJSWhitespace).reverse.dropWhile isJSWhitespace).reverse

/-- Model of JavaScript `s.startsWith(pre)`. -/
def jsStartsWith (s pre : Str) : Bool := decide (s.take pre.length = pre)

/-- Model of JavaScript `s.endsWith(suf)`. -/
def jsEndsWith (s suf : Str) : Bool :=
  decide (s.drop (s.length - suf.length) = suf)

/-- A decimal digit, as matched by the regex class `\d`. -/
def isJSDigit (c : Char) : Bool := decide ('0' ≤ c) && decide (c ≤ '9')

/-- A hexadecimal digit as matched case-insensitively by `[a-f0-9]`. -/
def isHexDigit (c : Char) : Bool :=
  isJSDigit c || (decide ('a' ≤ c) && decide (c ≤ 'f'))
    || (decide ('A' ≤ c) && decide (c ≤ 'F'))

/-- `ContextResolver.isDynamicSegment` (identical in both source variants):
numeric ids (`^\d+$`), UUID-shaped tokens (`^[a-f0-9-]{36}$/i`), hashes of
eight or more hex characters (`^[a-f0-9]{8,}$/i`), and MongoDB object ids
(`^[a-f0-9]{24}$/i`). -/
def isDynamicSegment (segment : Str) : Bool :=
  if !segment.isEmpty && segment.all isJSDigit then true
  else if segment.length = 36 && segment.all (fun c => isHexDigit c || c = '-') then true
  else if 8 ≤ segment.length && segment.all isHexDigit then true
  else if segment.length = 24 && segment.all isHexDigit then true
  else false

/-- `ContextResolver.matchDomain` (multi-tenant variant): exact hostname
match, or wildcard `*.<suffix>` matching `hostname.endsWith('.<suffix>')`
as well as the bare parent domain `hostname === pattern.slice(2)`. -/
def matchDomain (hostname pattern : Str) : Bool :=
  if hostname = pattern then true
  else if jsStartsWith pattern (str "*.") then
    jsEndsWith hostname (pattern.drop 1) || decide (hostname = pattern.drop 2)
  else false

/-- A store path: segments relative to the plugin root, the resolver's
`instructionsDir` being the first segment. -/
abbrev Path := List Str

/-- Abstract instruction store: existing directories, existing file
entries with their raw contents (`none` content marks an unreadable
file, whose read throws and is swallowed by the source's `catch`), and
the `readdirSync(dir, withFileTypes)` listing (name, isDirectory). -/
structure FS where
  dirs : List Path
  files : List (Path × Option Str)
  readdir : Path → List (Str × Bool)

/-- The file entry stored at a path, if any. -/
def FS.lookupFile (fs : FS) (p : Path) : Option (Option Str) :=
  (fs.files.find? (fun e => decide (e.1 = p))).map (fun e => e.2)

/-- Model of `existsSync`: the path is a directory or a file. -/
def FS.existsPath (fs : FS) (p : Path) : Bool :=
  fs.dirs.contains p || (fs.lookupFile p).isSome

/-- Model of `readFileSync` wrapped in the source's `try`: returns the raw
content when the path is a readable file, `none` when the read throws. -/
def FS.readRaw (fs : FS) (p : Path) : Option Str :=
  match fs.lookupFile p with
  | some (some c) => some c
  | _ => none

/-- `ContextResolver.loadFile` (identical in both source variants):
check `existsSync`, then read and `trim`, returning `null` when the path
is absent or the read throws. -/
def loadFile (fs : FS) (dir : Str) (rel : Path) : Option Str :=
  if fs.existsPath (dir :: rel) then
    match fs.readRaw (dir :: rel) with
    | some c => some (trim c)
    | none => none
  else none

/-- The JavaScript pattern `if (x) instructions.push(x)` for a
`string | null` value: push only non-null, non-empty strings. -/
def pushIfTruthy (acc : List Str) (o : Option Str) : List Str :=
  match o with
  | some s => if s.isEmpty then acc else acc ++ [s]
  | none => acc

/-- One step of `pathname.replace(/\/$/, '')`: remove one trailing slash. -/
def stripTrailingSlash (p : Str) : Str :=
  match p.reverse with
  | '/' :: r => r.reverse
  | _ => p

/-- `pathname.replace(/\/$/, '') || '/'` from both resolve variants. -/
def normalizedPath (p : Str) : Str :=
  let s := stripTrailingSlash p
  if s.isEmpty then str "/" else s

/-- JavaScript `s.split(c)` on a single-character separator. -/
def splitOnChar (c : Char) : Str → List Str
  | [] => [[]]
  | x :: xs =>
    match splitOnChar c xs with
    | [] => [[]]
    | y :: ys => if x = c then [] :: y :: ys else (x :: y) :: ys

/-- `normalizedPath.split('/').filter(Boolean)` from both resolve
variants: the non-empty path segments. -/
def segmentsOf (pathname : Str) : List Str :=
  (splitOnChar '/' (normalizedPath pathname)).filter (fun s => !s.isEmpty)

/-- JavaScript `Array.prototype.join(sep)`. -/
def joinSep (sep : Str) : List Str → Str
  | [] => []
  | [x] => x
  | x :: y :: ys => x ++ sep ++ joinSep sep (y :: ys)

/-- The separator `'\n\n---\n\n'` used to join resolved documents. -/
def docSep : Str := str "\n\n---\n\n"

/-- `instructions.length > 0 ? instructions.join('\n\n---\n\n') : null`. -/
def mergeResult (instructions : List Str) : Option Str :=
  if instructions.isEmpty then none else some (joinSep docSep instructions)

/-- The hostname and pathname of a successfully parsed absolute URL. -/
structure UrlParts where
  hostname : Str
  pathname : Str
deriving DecidableEq

/-- The observable outcome of `JSON.parse` on a `_config.json` content,
followed by the source's `config.domains && Array.isArray(config.domains)`
inspection: the parse throws, or the parsed object has no truthy array
`domains` field, or it has a `domains` array with the given entries
(the model restricts entries to strings, the only shape the resolver's
domain matching is defined on). -/
inductive JSOutcome where
  | throw
  | noDomains
  | domains (l : List Str)
deriving DecidableEq

namespace ST

/-- State of the single-tenant `ContextResolver`: the instructions
directory and the `cache : Map<string, string | null>`. -/
structure State where
  instructionsDir : Str
  cache : Str → Option (Option Str)

/-- A fresh single-tenant resolver, as built by the constructor. -/
def init (dir : Str) : State :=
  { instructionsDir := dir, cache := fun _ => none }

/-- `this.cache.set(url, result)` on the single-tenant state. -/
def setCache (st : State) (url : Str) (r : Option Str) : State :=
  { st with cache := fun k => if k = url then some r else st.cache k }

/-- The pathname used by the single-tenant `resolve`: the parsed URL's
pathname, or on parse failure the raw string treated as a literal path
(prefixing `/` when missing). -/
def pathnameOf (parse : Str → Option UrlParts) (url : Str) : Str :=
  match parse url with
  | some parts => parts.pathname
  | none => if jsStartsWith url (str "/") then url else '/' :: url

/-- The single-tenant segment loop (part_000 lines 46-90): per segment,
try `_dynamic` then `*` for dynamic segments (else the literal segment)
as a subdirectory; on a match advance and push that directory's
`_base.md`, and for the last segment additionally push its `index.md`;
on no match push `<segment>.md` when last, and stop. -/
def walk (fs : FS) (dir : Str) : List Str → Path → List Str → List Str
  | [], _, acc => acc
  | segment :: rest, currentPath, acc =>
    let isLastSegment := rest.isEmpty
    let foldersToTry :=
      if isDynamicSegment segment then [str "_dynamic", str "*"] else [segment]
    match foldersToTry.find? (fun f => fs.existsPath (dir :: (currentPath ++ [f]))) with
    | some matchedFolder =>
      let newPath := currentPath ++ [matchedFolder]
      let acc1 := pushIfTruthy acc (loadFile fs dir (newPath ++ [str "_base.md"]))
      let acc2 :=
        if isLastSegment then
          pushIfTruthy acc1 (loadFile fs dir (newPath ++ [str "index.md"]))
        else acc1
      walk fs dir rest newPath acc2
    | none =>
      if isLastSegment then
        pushIfTruthy acc (loadFile fs dir (currentPath ++ [segment ++ str ".md"]))
      else acc

/-- The single-tenant exact-path step (part_000 lines 92-100): load
`<parent>/<lastSegment>.md` and append it unless already included. -/
def exactStep (fs : FS) (dir : Str) (segments : List Str)
    (instructions : List Str) : List Str :=
  match segments.getLast? with
  | none => instructions
  | some lastSegment =>
    match loadFile fs dir (segments.dropLast ++ [lastSegment ++ str ".md"]) with
    | some exactFile =>
      if !exactFile.isEmpty && !(decide (exactFile ∈ instructions)) then
        instructions ++ [exactFile]
      else instructions
    | none => instructions

/-- The cache-miss body of the single-tenant `resolve`: root `_base.md`,
then the segment walk from the store root, then the exact-path step. -/
def compute (fs : FS) (dir : Str) (pathname : Str) : List Str :=
  let segments := segmentsOf pathname
  let acc0 := pushIfTruthy [] (loadFile fs dir [str "_base.md"])
  let acc1 := walk fs dir segments [] acc0
  exactStep fs dir segments acc1

/-- The single-tenant `ContextResolver.resolve` (part_000 lines 20-111):
cache lookup, pathname extraction (with the literal-path fallback), the
hierarchical walk, the join, and the cache write. -/
def resolve (parse : Str → Option UrlParts) (fs : FS) (st : State)
    (url : Str) : Option Str × State :=
  match st.cache url with
  | some r => (r, st)
  | none =>
    let result := mergeResult (compute fs st.instructionsDir (pathnameOf parse url))
    (result, setCache st url result)

/-- The single-tenant `clearCache` (part_000 lines 146-148). -/
def clearCache (st : State) : State :=
  { st with cache := fun _ => none }

end ST

namespace MT

/-- State of the multi-tenant `ContextResolver`: the instructions
directory, the resolution `cache`, and the memoized `configCache`
(`null` until `loadConfigs` first runs). -/
structure State where
  instructionsDir : Str
  cache : Str → Option (Option Str)
  configCache : Option (List (Str × List Str))

/-- A fresh multi-tenant resolver, as built by the constructor. -/
def init (dir : Str) : State :=
  { instructionsDir := dir, cache := fun _ => none, configCache := none }

/-- `this.cache.set(url, result)` on the multi-tenant state. -/
def setCache (st : State) (url : Str) (r : Option Str) : State :=
  { st with cache := fun k => if k = url then some r else st.cache k }

/-- JavaScript `Map.prototype.set`: replace the value of an existing key
in place, otherwise append the binding. -/
def mapSet (m : List (Str × List Str)) (k : Str) (v : List Str) :
    List (Str × List Str) :=
  if m.any (fun e => decide (e.1 = k)) then
    m.map (fun e => if e.1 = k then (k, v) else e)
  else m ++ [(k, v)]

/-- One iteration of the `loadConfigs` loop (part_001 lines 36-50): skip
non-directory entries; when the entry's `_config.json` exists, reads,
parses, and carries an array `domains` field (empty or not), register
the entry's name with that array via `Map.set`. -/
def registerEntry (jp : Str → JSOutcome) (fs : FS) (dir : Str)
    (configCache : List (Str × List Str)) (entry : Str × Bool) :
    List (Str × List Str) :=
  if !entry.2 then configCache
  else
    let configPath : Path := [dir, entry.1, str "_config.json"]
    if fs.existsPath configPath then
      match fs.readRaw configPath with
      | some content =>
        match jp content with
        | JSOutcome.domains l => mapSet configCache entry.1 l
        | _ => configCache
      | none => configCache
    else configCache

/-- The pure computation inside `ContextResolver.loadConfigs` (part_001
lines 24-53): if the instructions directory exists, fold the loop body
`registerEntry` over its directory listing. -/
def computeConfigs (jp : Str → JSOutcome) (fs : FS) (dir : Str) :
    List (Str × List Str) :=
  if !fs.existsPath [dir] then []
  else (fs.readdir [dir]).foldl (registerEntry jp fs dir) []

/-- `loadConfigs` with its memoization: return the cached map, or compute
and store it. -/
def loadConfigs (jp : Str → JSOutcome) (fs : FS) (st : State) :
    List (Str × List Str) × State :=
  match st.configCache with
  | some configs => (configs, st)
  | none =>
    let configs := computeConfigs jp fs st.instructionsDir
    (configs, { st with configCache := some configs })

/-- `ContextResolver.findInstructionSet` (part_001 lines 77-89): the
first registered set any of whose domain patterns matches the hostname. -/
def findInstructionSet (configs : List (Str × List Str)) (hostname : Str) :
    Option Str :=
  match configs with
  | [] => none
  | (folder, domains) :: rest =>
    if domains.any (fun d => matchDomain hostname d) then some folder
    else findInstructionSet rest hostname

/-- The multi-tenant segment loop (part_001 lines 134-178); its body is
identical to the single-tenant loop, including the last-segment
`index.md` step. -/
def walk (fs : FS) (dir : Str) : List Str → Path → List Str → List Str
  | [], _, acc => acc
  | segment :: rest, currentPath, acc =>
    let isLastSegment := rest.isEmpty
    let foldersToTry :=
      if isDynamicSegment segment then [str "_dynamic", str "*"] else [segment]
    match foldersToTry.find? (fun f => fs.existsPath (dir :: (currentPath ++ [f]))) with
    | some matchedFolder =>
      let newPath := currentPath ++ [matchedFolder]
      let acc1 := pushIfTruthy acc (loadFile fs dir (newPath ++ [str "_base.md"]))
      let acc2 :=
        if isLastSegment then
          pushIfTruthy acc1 (loadFile fs dir (newPath ++ [str "index.md"]))
        else acc1
      walk fs dir rest newPath acc2
    | none =>
      if isLastSegment then
        pushIfTruthy acc (loadFile fs dir (currentPath ++ [segment ++ str ".md"]))
      else acc

/-- The multi-tenant exact-path step (part_001 lines 180-188): the parent
directory is rooted at the matched instruction set. -/
def exactStep (fs : FS) (dir : Str) (instructionSet : Str)
    (segments : List Str) (instructions : List Str) : List Str :=
  match segments.getLast? with
  | none => instructions
  | some lastSegment =>
    match loadFile fs dir
        (instructionSet :: segments.dropLast ++ [lastSegment ++ str ".md"]) with
    | some exactFile =>
      if !exactFile.isEmpty && !(decide (exactFile ∈ instructions)) then
        instructions ++ [exactFile]
      else instructions
    | none => instructions

/-- The cache-miss body of the multi-tenant `resolve` once an instruction
set is matched: the set's root `_base.md`, the segment walk rooted at the
set, then the exact-path step. -/
def compute (fs : FS) (dir : Str) (instructionSet : Str) (pathname : Str) :
    List Str :=
  let segments := segmentsOf pathname
  let acc0 := pushIfTruthy [] (loadFile fs dir [instructionSet, str "_base.md"])
  let acc1 := walk fs dir segments [instructionSet] acc0
  exactStep fs dir instructionSet segments acc1

/-- The multi-tenant `ContextResolver.resolve` (part_001 lines 95-199):
cache lookup; URL parse (failure caches and returns `null`); instruction
set lookup by hostname (no match caches and returns `null`); then the
hierarchical walk, the join, and the cache write. -/
def resolve (parse : Str → Option UrlParts) (jp : Str → JSOutcome) (fs : FS)
    (st : State) (url : Str) : Option Str × State :=
  match st.cache url with
  | some r => (r, st)
  | none =>
    match parse url with
    | none => (none, setCache st url none)
    | some parts =>
      let loaded := loadConfigs jp fs st
      match findInstructionSet loaded.1 parts.hostname with
      | none => (none, setCache loaded.2 url none)
      | some instructionSet =>
        let result :=
          mergeResult (compute fs loaded.2.instructionsDir instructionSet parts.pathname)
        (result, setCache loaded.2 url result)

/-- The multi-tenant `clearCache` (part_001 lines 234-237): empty the
resolution cache and null the config cache. -/
def clearCache (st : State) : State :=
  { st with cache := fun _ => none, configCache := none }

/-- Characterization of one `loadConfigs` loop iteration: the binding it
would register, if any (proof-support definition). -/
def entryConfig (jp : Str → JSOutcome) (fs : FS) (dir : Str)
    (entry : Str × Bool) : Option (Str × List Str) :=
  if entry.2 = true ∧ fs.existsPath [dir, entry.1, str "_config.json"] = true then
    match fs.readRaw [dir, entry.1, str "_config.json"] with
    | some content =>
      match jp content with
      | JSOutcome.domains l => some (entry.1, l)
      | _ => none
    | none => none
  else none

end MT

/-- A document accumulated by the walk: non-empty and of the shape
`trim c` for some raw file content `c`. -/
def GoodDoc (e : Str) : Prop := e ≠ [] ∧ ∃ c, e = trim c

/-! Concrete instruction-store fixtures used by the concrete theorems. -/

/-- The instructions directory segment used by all fixtures. -/
def dirC : Str := str "DIR"

/-- Scenario A store: `_base.md` at the root and `seo/_base.md`, nothing
else (single-tenant layout). -/
def fsScenarioA : FS :=
  { dirs := [[dirC], [dirC, str "seo"]]
    files := [([dirC, str "_base.md"], some (str "ROOT")),
              ([dirC, str "seo", str "_base.md"], some (str "SEO"))]
    readdir := fun _ => [] }

/-- A URL parser that fails on every input (used where resolution should
fall back to literal-path handling, and for malformed-URL inputs). -/
def parseNone : Str → Option UrlParts := fun _ => none

/-- Multi-tenant store whose set `acme` contains only
`dash/index.md`; its `_config.json` parses to `CFG`. -/
def fsIndex : FS :=
  { dirs := [[dirC], [dirC, str "acme"], [dirC, str "acme", str "dash"]]
    files := [([dirC, str "acme", str "_config.json"], some (str "CFG")),
              ([dirC, str "acme", str "dash", str "index.md"], some (str "IDX"))]
    readdir := fun p => if p = [dirC] then [(str "acme", true)] else [] }

/-- JSON-parse model registering content `CFG` as
`{ domains: ['*.example.com'] }` and failing on everything else. -/
def jpAcme : Str → JSOutcome :=
  fun c =>
    if c = str "CFG" then JSOutcome.domains [str "*.example.com"]
    else JSOutcome.throw

/-- A URL on host `app.example.com` with path `/dash`. -/
def urlDash : Str := str "https://app.example.com/dash"

/-- URL parser recognizing exactly `urlDash`. -/
def parseDash : Str → Option UrlParts :=
  fun u =>
    if u = urlDash then some ⟨str "app.example.com", str "/dash"⟩ else none

/-- Store for the duplication counterexample: the only document is
`acme/seo/_base.md`, whose raw content `"  S  "` trims to `S`. -/
def fsDup : FS :=
  { dirs := [[dirC], [dirC, str "acme"], [dirC, str "acme", str "seo"]]
    files := [([dirC, str "acme", str "seo", str "_base.md"], some (str "  S  "))]
    readdir := fun _ => [] }

/-- Store with one top-level directory `emptyset` whose configuration
parses to an empty `domains` array. -/
def fsEmptyCfg : FS :=
  { dirs := [[dirC], [dirC, str "emptyset"]]
    files := [([dirC, str "emptyset", str "_config.json"], some (str "ECFG"))]
    readdir := fun p => if p = [dirC] then [(str "emptyset", true)] else [] }

/-- JSON-parse model registering content `ECFG` as `{ domains: [] }`. -/
def jpEmptyCfg : Str → JSOutcome :=
  fun c => if c = str "ECFG" then JSOutcome.domains [] else JSOutcome.throw

/-- Multi-tenant store before the content change of Scenario D:
`acme/seo/_base.md` holds `OLD`. -/
def fsOld : FS :=
  { dirs := [[dirC], [dirC, str "acme"], [dirC, str "acme", str "seo"]]
    files := [([dirC, str "acme", str "_config.json"], some (str "CFG")),
              ([dirC, str "acme", str "seo", str "_base.md"], some (str "OLD"))]
    readdir := fun p => if p = [dirC] then [(str "acme", true)] else [] }

/-- The same store after the content change: `acme/seo/_base.md` now
holds `NEW`. -/
def fsNew : FS :=
  { dirs := [[dirC], [dirC, str "acme"], [dirC, str "acme", str "seo"]]
    files := [([dirC, str "acme", str "_config.json"], some (str "CFG")),
              ([dirC, str "acme", str "seo", str "_base.md"], some (str "NEW"))]
    readdir := fun p => if p = [dirC] then [(str "acme", true)] else [] }

/-- A URL on host `app.example.com` with path `/seo`. -/
def urlSeo : Str := str "https://app.example.com/seo"

/-- URL parser recognizing exactly `urlSeo`. -/
def parseSeo : Str → Option UrlParts :=
  fun u =>
    if u = urlSeo then some ⟨str "app.example.com", str "/seo"⟩ else none

/-! Supporting lemmas. -/

/-- A string starts with `*.` exactly when it is `*.` followed by some
suffix. -/
theorem jsStartsWith_star_dot_iff (p : Str) :
    jsStartsWith p (str "*.") = true ↔ ∃ s, p = '*' :: '.' :: s := by
  simp only [jsStartsWith, decide_eq_true_eq]
  constructor
  · intro h
    cases p with
    | nil => simp [str] at h
    | cons a q =>
      cases q with
      | nil => simp [str, List.take] at h
      | cons b rest =>
        have h2 : [a, b] = str "*." := h
        have ha : a = '*' := by
          have := congrArg (fun l => l.head?) h2
          simpa [str] using this
        have hb : b = '.' := by
          have := congrArg (fun l => l.getLast?) h2
          simpa [str] using this
        exact ⟨rest, by rw [ha, hb]⟩
  · rintro ⟨s, rfl⟩
    rfl

/-- `jsEndsWith s t` holds exactly when `t` is a suffix of `s`. -/
theorem jsEndsWith_iff (s t : Str) :
    jsEndsWith s t = true ↔ ∃ u, s = u ++ t := by
  simp only [jsEndsWith, decide_eq_true_eq]
  constructor
  · intro h
    refine ⟨s.take (s.length - t.length), ?_⟩
    conv_lhs => rw [← List.take_append_drop (s.length - t.length) s]
    rw [h]
  · rintro ⟨u, rfl⟩
    have hl : (u ++ t).length - t.length = u.length := by
      simp [List.length_append]
    rw [hl, List.drop_left]

/-- C3: `matchDomain(h, p)` is true iff `h` equals `p` exactly, or `p`
has the form `*.` followed by a suffix `s` and `h` ends with `.` + `s`
or `h` equals `s`; in particular `*.example.com` matches `example.com`,
`a.example.com` and `a.b.example.com`, and not `notexample.com`. -/
theorem C3_matchDomain_spec :
    (∀ h p : Str, matchDomain h p = true ↔
      (h = p ∨ ∃ s, p = '*' :: '.' :: s ∧ ((∃ u, h = u ++ '.' :: s) ∨ h = s)))
    ∧ matchDomain (str "example.com") (str "*.example.com") = true
    ∧ matchDomain (str "a.example.com") (str "*.example.com") = true
    ∧ matchDomain (str "a.b.example.com") (str "*.example.com") = true
    ∧ matchDomain (str "notexample.com") (str "*.example.com") = false := by
  refine ⟨?_, by decide, by decide, by decide, by decide⟩
  intro h p
  unfold matchDomain
  by_cases hp : h = p
  · simp [hp]
  · rw [if_neg hp]
    by_cases hsw : jsStartsWith p (str "*.") = true
    · rw [if_pos hsw]
      obtain ⟨s, rfl⟩ := (jsStartsWith_star_dot_iff p).mp hsw
      have e1 : ('*' :: '.' :: s).drop 1 = '.' :: s := rfl
      have e2 : ('*' :: '.' :: s).drop 2 = s := rfl
      rw [e1, e2]
      simp only [Bool.or_eq_true, decide_eq_true_eq, jsEndsWith_iff]
      constructor
      · intro hor
        exact Or.inr ⟨s, rfl, hor⟩
      · rintro (hpe | ⟨s', hs', hor⟩)
        · exact absurd hpe hp
        · obtain rfl : s' = s := by
            injection hs' with h1 h2
            injection h2 with h3 h4
            exact h4.symm
          exact hor
    · rw [if_neg hsw]
      constructor
      · intro hx
        simp at hx
      · rintro (hpe | ⟨s, rfl, h2⟩)
        · exact absurd hpe hp
        · exact absurd ((jsStartsWith_star_dot_iff _).mpr ⟨s, rfl⟩) hsw

/-- The head of `dropWhile p l` does not satisfy `p`. -/
theorem dropWhile_head_false (p : Char → Bool) (l : Str) (a : Char)
    (h : (l.dropWhile p).head? = some a) : p a = false := by
  induction l with
  | nil => simp [List.dropWhile] at h
  | cons x xs ih =>
    rw [List.dropWhile_cons] at h
    by_cases hx : p x = true
    · rw [if_pos hx] at h
      exact ih h
    · rw [if_neg hx] at h
      simp only [List.head?_cons, Option.some.injEq] at h
      rw [← h]
      exact Bool.not_eq_true _ |>.mp hx

/-- `dropWhile p` is the identity on a list whose head does not satisfy
`p`. -/
theorem dropWhile_eq_self (p : Char → Bool) (l : Str)
    (h : ∀ a, l.head? = some a → p a = false) : l.dropWhile p = l := by
  cases l with
  | nil => rfl
  | cons x xs =>
    rw [List.dropWhile_cons, if_neg]
    rw [h x rfl]
    simp

/-- The last element of `dropWhile p l` is the last element of `l`. -/
theorem dropWhile_getLast? (p : Char → Bool) (l : Str) (a : Char)
    (h : (l.dropWhile p).getLast? = some a) : l.getLast? = some a := by
  have hsplit := List.takeWhile_append_dropWhile p l
  have := @List.getLast?_append _ (l.takeWhile p) (l.dropWhile p)
  rw [hsplit] at this
  rw [this, h]
  rfl

/-- The head of a trimmed string is not whitespace. -/
theorem trim_head_false (c : Str) (a : Char)
    (h : (trim c).head? = some a) : isJSWhitespace a = false := by
  unfold trim at h
  rw [List.head?_reverse] at h
  have h2 := dropWhile_getLast? _ _ _ h
  rw [List.getLast?_reverse] at h2
  exact dropWhile_head_false _ _ _ h2

/-- The last character of a trimmed string is not whitespace. -/
theorem trim_getLast_false (c : Str) (a : Char)
    (h : (trim c).getLast? = some a) : isJSWhitespace a = false := by
  unfold trim at h
  rw [List.getLast?_reverse] at h
  exact dropWhile_head_false _ _ _ h

/-- Trimming a string with non-whitespace ends is the identity. -/
theorem trim_of_ends (t : Str)
    (hh : ∀ a, t.head? = some a → isJSWhitespace a = false)
    (hl : ∀ a, t.getLast? = some a → isJSWhitespace a = false) :
    trim t = t := by
  unfold trim
  rw [dropWhile_eq_self _ _ hh]
  rw [dropWhile_eq_self _ _ (fun a ha => hl a (by rwa [List.head?_reverse] at ha))]
  exact List.reverse_reverse t

/-- `trim` is idempotent. -/
theorem trim_trim (c : Str) : trim (trim c) = trim c :=
  trim_of_ends _ (trim_head_false c) (trim_getLast_false c)

/-- Any document produced by `loadFile` is a trim of some raw content. -/
theorem loadFile_eq_trim (fs : FS) (dir : Str) (rel : Path) (s : Str)
    (h : loadFile fs dir rel = some s) : ∃ c, s = trim c := by
  unfold loadFile at h
  split at h
  · cases hr : fs.readRaw (dir :: rel) with
    | none => rw [hr] at h; exact absurd h (by simp)
    | some c =>
      rw [hr] at h
      exact ⟨c, (Option.some.injEq _ _ ▸ h).symm⟩
  · exact absurd h (by simp)

/-- The numeric-id regex test, as a proposition. -/
theorem cond_digits_iff (s : Str) :
    (!s.isEmpty && s.all isJSDigit) = true ↔
      (s ≠ [] ∧ ∀ c ∈ s, '0' ≤ c ∧ c ≤ '9') := by
  cases s with
  | nil => simp
  | cons a l => simp [List.all_eq_true, isJSDigit]

/-- The UUID regex test, as a proposition. -/
theorem cond_uuid_iff (s : Str) :
    (s.length = 36 && s.all (fun c => isHexDigit c || c = '-')) = true ↔
      (s.length = 36 ∧ ∀ c ∈ s,
        ('0' ≤ c ∧ c ≤ '9') ∨ ('a' ≤ c ∧ c ≤ 'f') ∨ ('A' ≤ c ∧ c ≤ 'F')
          ∨ c = '-') := by
  simp [List.all_eq_true, isHexDigit, isJSDigit, or_assoc]

/-- The hash regex test (eight or more hex characters), as a
proposition. -/
theorem cond_hex8_iff (s : Str) :
    (8 ≤ s.length && s.all isHexDigit) = true ↔
      (8 ≤ s.length ∧ ∀ c ∈ s,
        ('0' ≤ c ∧ c ≤ '9') ∨ ('a' ≤ c ∧ c ≤ 'f') ∨ ('A' ≤ c ∧ c ≤ 'F')) := by
  simp [List.all_eq_true, isHexDigit, isJSDigit, or_assoc]

/-- C8: `isDynamicSegment` is true iff the segment is all decimal digits
of length at least one, or a 36-character token of hex digits and
hyphens (case-insensitive), or a run of eight or more hex characters
(case-insensitive) — the exactly-24-hex object-id test of the source is
subsumed by the last disjunct; the classifier is a pure function, so the
same input always yields the same output. -/
theorem C8_isDynamicSegment_spec :
    ∀ s : Str, isDynamicSegment s = true ↔
      ((s ≠ [] ∧ ∀ c ∈ s, '0' ≤ c ∧ c ≤ '9')
        ∨ (s.length = 36 ∧ ∀ c ∈ s,
            ('0' ≤ c ∧ c ≤ '9') ∨ ('a' ≤ c ∧ c ≤ 'f') ∨ ('A' ≤ c ∧ c ≤ 'F')
              ∨ c = '-')
        ∨ (8 ≤ s.length ∧ ∀ c ∈ s,
            ('0' ≤ c ∧ c ≤ '9') ∨ ('a' ≤ c ∧ c ≤ 'f') ∨ ('A' ≤ c ∧ c ≤ 'F'))) := by
  intro s
  unfold isDynamicSegment
  by_cases h1 : (!s.isEmpty && s.all isJSDigit) = true
  · rw [if_pos h1]
    simp only [true_iff]
    exact Or.inl ((cond_digits_iff s).mp h1)
  · rw [if_neg h1]
    by_cases h2 : (s.length = 36 && s.all (fun c => isHexDigit c || c = '-')) = true
    · rw [if_pos h2]
      simp only [true_iff]
      exact Or.inr (Or.inl ((cond_uuid_iff s).mp h2))
    · rw [if_neg h2]
      by_cases h3 : (8 ≤ s.length && s.all isHexDigit) = true
      · rw [if_pos h3]
        simp only [true_iff]
        exact Or.inr (Or.inr ((cond_hex8_iff s).mp h3))
      · rw [if_neg h3]
        by_cases h4 : (s.length = 24 && s.all isHexDigit) = true
        · exfalso
          apply h3
          simp only [Bool.and_eq_true, decide_eq_true_eq] at h4 ⊢
          obtain ⟨h41, h42⟩ := h4
          exact ⟨by omega, h42⟩
        · rw [if_neg h4]
          constructor
          · intro hx
            simp at hx
          · rintro (hd | hu | hh)
            · exact absurd ((cond_digits_iff s).mpr hd) h1
            · exact absurd ((cond_uuid_iff s).mpr hu) h2
            · exact absurd ((cond_hex8_iff s).mpr hh) h3

/-- A multi-tenant resolution on a cached URL returns the cached value
and leaves the state untouched, for any store. -/
theorem MT.resolve_hit (parse : Str → Option UrlParts) (jp : Str → JSOutcome)
    (fs : FS) (st : MT.State) (url : Str) (r : Option Str)
    (h : st.cache url = some r) :
    MT.resolve parse jp fs st url = (r, st) := by
  unfold MT.resolve
  rw [h]

/-- Writing the cache makes the written entry readable. -/
theorem MT.setCache_self (st : MT.State) (url : Str) (r : Option Str) :
    (MT.setCache st url r).cache url = some r := by
  simp [MT.setCache]

/-- C4: after one multi-tenant `resolve(u)`, the cache holds an entry
keyed by the exact raw string `u` mapping to the first call's result
(present or absent); a second `resolve(u)` — against any store
whatsoever, hence performing no store reads — returns the same result
and the same state. -/
theorem C4_resolve_idempotent :
    ∀ (parse : Str → Option UrlParts) (jp : Str → JSOutcome) (fs : FS)
      (st : MT.State) (url : Str),
      ((MT.resolve parse jp fs st url).2).cache url
          = some (MT.resolve parse jp fs st url).1
        ∧ ∀ fsx : FS,
            MT.resolve parse jp fsx ((MT.resolve parse jp fs st url).2) url
              = ((MT.resolve parse jp fs st url).1,
                 (MT.resolve parse jp fs st url).2) := by
  intro parse jp fs st url
  have key : ((MT.resolve parse jp fs st url).2).cache url
      = some (MT.resolve parse jp fs st url).1 := by
    unfold MT.resolve
    cases hc : st.cache url with
    | some r => exact hc
    | none =>
      cases hp : parse url with
      | none => simp [MT.setCache]
      | some parts =>
        cases hfind : MT.findInstructionSet (MT.loadConfigs jp fs st).1
            parts.hostname with
        | none => simp [hfind, MT.setCache]
        | some instructionSet => simp [hfind, MT.setCache]
  exact ⟨key, fun fsx => MT.resolve_hit parse jp fsx _ url _ key⟩

/-- C1 counterexample: in the multi-tenant variant, resolving
`https://app.example.com/dash` against a store whose only document is
`acme/dash/index.md` (content `IDX`) yields exactly that `index.md`
content — the multi-tenant walk does perform the last-segment
`index.md` step, so the claim that it omits it is false. -/
theorem C1_counterexample :
    (MT.resolve parseDash jpAcme fsIndex (MT.init dirC) urlDash).1
        = some (str "IDX")
      ∧ fsIndex.readRaw [dirC, str "acme", str "dash", str "index.md"]
        = some (str "IDX") := by
  constructor
  · decide
  · decide

/-- C1 (amended): the multi-tenant segment walk is identical to the
single-tenant one — including the step that, when the last segment
matches a folder, loads `index.md` from the newly advanced directory
and appends it if present. -/
theorem C1_walks_agree :
    ∀ (fs : FS) (dir : Str) (segs : List Str) (currentPath : Path)
      (acc : List Str),
      MT.walk fs dir segs currentPath acc = ST.walk fs dir segs currentPath acc := by
  intro fs dir segs
  induction segs with
  | nil =>
    intro currentPath acc
    rfl
  | cons seg rest ih =>
    intro currentPath acc
    simp only [MT.walk, ST.walk]
    cases hf : (if isDynamicSegment seg then [str "_dynamic", str "*"] else [seg]).find?
        (fun f => fs.existsPath (dir :: (currentPath ++ [f]))) with
    | some matchedFolder =>
      simp only [hf]
      exact ih _ _
    | none =>
      simp only [hf]

/-- C5 counterexample: resolving path `/seo/_base` against a store whose
only document is `acme/seo/_base.md` yields that document twice — once
from the folder-descent step for `seo`, once from the last-segment file
fallback for `_base` — so one store file can contribute its document to
the output more than once. -/
theorem C5_counterexample :
    MT.compute fsDup dirC (str "acme") (str "/seo/_base") = [str "S", str "S"]
      ∧ ¬ (MT.compute fsDup dirC (str "acme") (str "/seo/_base")).Nodup := by
  constructor
  · decide
  · decide

/-- C5 (amended): the exact sibling-file step never introduces a
duplicate — it either leaves the accumulated list unchanged or appends
one non-empty document that differs from every accumulated document.
(The walk itself, by contrast, can include one file's content twice, as
the counterexample shows.) -/
theorem C5_exactStep_dedup :
    ∀ (fs : FS) (dir instructionSet : Str) (segments : List Str)
      (acc : List Str),
      MT.exactStep fs dir instructionSet segments acc = acc
        ∨ ∃ e, MT.exactStep fs dir instructionSet segments acc = acc ++ [e]
            ∧ e ∉ acc ∧ e ≠ [] := by
  intro fs dir iSet segs acc
  unfold MT.exactStep
  split
  · exact Or.inl rfl
  · split
    · split
      · rename_i exactFile hload hcond
        simp only [Bool.and_eq_true, Bool.not_eq_true',
          decide_eq_false_iff_not] at hcond
        exact Or.inr ⟨exactFile, rfl, hcond.2, List.isEmpty_eq_false.mp hcond.1⟩
      · exact Or.inl rfl
    · exact Or.inl rfl

/-- C6: on a URL that fails to parse, the multi-tenant resolve returns
absent, caches absent under the exact input string, and leaves the
config cache untouched; the single-tenant resolve treats the raw string
as a literal path (prefixing `/` when missing) and resolves it; neither
raises an error (both are total functions). -/
theorem C6_malformed_url :
    ∀ (parse : Str → Option UrlParts) (jp : Str → JSOutcome) (fs : FS)
      (st : MT.State) (stS : ST.State) (url : Str),
      parse url = none → st.cache url = none → stS.cache url = none →
      (MT.resolve parse jp fs st url).1 = none
        ∧ ((MT.resolve parse jp fs st url).2).cache url = some none
        ∧ ((MT.resolve parse jp fs st url).2).configCache = st.configCache
        ∧ ST.pathnameOf parse url
          = (if jsStartsWith url (str "/") then url else '/' :: url)
        ∧ (ST.resolve parse fs stS url).1
          = mergeResult (ST.compute fs stS.instructionsDir
              (if jsStartsWith url (str "/") then url else '/' :: url)) := by
  intro parse jp fs st stS url hparse hc hcS
  refine ⟨?_, ?_, ?_, ?_, ?_⟩
  · unfold MT.resolve
    rw [hc, hparse]
  · unfold MT.resolve
    rw [hc, hparse]
    simp [MT.setCache]
  · unfold MT.resolve
    rw [hc, hparse]
    rfl
  · unfold ST.pathnameOf
    rw [hparse]
  · unfold ST.resolve
    rw [hcS]
    unfold ST.pathnameOf
    rw [hparse]

/-- Witness for C6 at the concrete unparseable input `abc`. -/
theorem C6_malformed_url_witness :
    (parseNone (str "abc") = none ∧ (MT.init dirC).cache (str "abc") = none
        ∧ (ST.init dirC).cache (str "abc") = none)
      ∧ ((MT.resolve parseNone jpAcme fsScenarioA (MT.init dirC) (str "abc")).1 = none
        ∧ ((MT.resolve parseNone jpAcme fsScenarioA (MT.init dirC) (str "abc")).2).cache
            (str "abc") = some none
        ∧ ((MT.resolve parseNone jpAcme fsScenarioA (MT.init dirC) (str "abc")).2).configCache
            = (MT.init dirC).configCache
        ∧ ST.pathnameOf parseNone (str "abc")
          = (if jsStartsWith (str "abc") (str "/") then (str "abc")
             else '/' :: (str "abc"))
        ∧ (ST.resolve parseNone fsScenarioA (ST.init dirC) (str "abc")).1
          = mergeResult (ST.compute fsScenarioA (ST.init dirC).instructionsDir
              (if jsStartsWith (str "abc") (str "/") then (str "abc")
               else '/' :: (str "abc")))) :=
  ⟨⟨rfl, rfl, rfl⟩,
   C6_malformed_url parseNone jpAcme fsScenarioA (MT.init dirC) (ST.init dirC)
     (str "abc") rfl rfl rfl⟩

/-- C7 (Scenario A): with only a root `_base.md` (content `ROOT`) and
`seo/_base.md` (content `SEO`) in the store, resolving path
`/seo/dashboard/123` collects exactly the root base then the `seo` base
— segment `dashboard` matches no folder, so `123` is never reached and
no leaf file is appended — and the result is the two documents joined
by the separator. -/
theorem C7_scenario_A :
    ST.compute fsScenarioA dirC (str "/seo/dashboard/123")
        = [str "ROOT", str "SEO"]
      ∧ (ST.resolve parseNone fsScenarioA (ST.init dirC)
          (str "/seo/dashboard/123")).1 = some (str "ROOT\n\n---\n\nSEO") := by
  constructor
  · decide
  · decide

/-- C9: `clearCache` empties the resolution cache and nulls the config
cache in one step, leaving the instructions directory unchanged; and
(Scenario D) after a resolve that cached `OLD`, a `clearCache` followed
by a resolve of the same URL against the changed store returns the
updated `NEW` content, not the stale cached value. -/
theorem C9_clearCache :
    (∀ st : MT.State,
      (MT.clearCache st).instructionsDir = st.instructionsDir
        ∧ (MT.clearCache st).configCache = none
        ∧ ∀ u, (MT.clearCache st).cache u = none)
    ∧ (MT.resolve parseSeo jpAcme fsOld (MT.init dirC) urlSeo).1
        = some (str "OLD")
    ∧ (MT.resolve parseSeo jpAcme fsNew
        (MT.clearCache (MT.resolve parseSeo jpAcme fsOld (MT.init dirC) urlSeo).2)
        urlSeo).1 = some (str "NEW") := by
  refine ⟨fun st => ⟨rfl, rfl, fun u => rfl⟩, by decide, by decide⟩

/-- `Map.set` on a key absent from the map appends the binding. -/
theorem MT.mapSet_append (m : List (Str × List Str)) (k : Str) (v : List Str)
    (h : ∀ e ∈ m, e.1 ≠ k) : MT.mapSet m k v = m ++ [(k, v)] := by
  have h' : ¬ (m.any (fun e => decide (e.1 = k)) = true) := by
    intro hx
    obtain ⟨e, he, heq⟩ := List.any_eq_true.mp hx
    exact h e he (of_decide_eq_true heq)
  unfold MT.mapSet
  rw [if_neg h']

/-- The loop body registers exactly the binding described by
`entryConfig`. -/
theorem MT.registerEntry_eq (jp : Str → JSOutcome) (fs : FS) (dir : Str)
    (acc : List (Str × List Str)) (e : Str × Bool) :
    MT.registerEntry jp fs dir acc e
      = match MT.entryConfig jp fs dir e with
        | some kv => MT.mapSet acc kv.1 kv.2
        | none => acc := by
  obtain ⟨name, isDir⟩ := e
  unfold MT.registerEntry MT.entryConfig
  cases isDir with
  | false => rfl
  | true =>
    simp only [Bool.not_true, Bool.false_eq_true, if_false, true_and]
    by_cases hex : fs.existsPath [dir, name, str "_config.json"] = true
    · rw [if_pos hex, if_pos hex]
      cases hr : fs.readRaw [dir, name, str "_config.json"] with
      | none => rfl
      | some c =>
        cases hj : jp c with
        | throw => simp [hj]
        | noDomains => simp [hj]
        | domains l => simp [hj]
    · rw [if_neg hex, if_neg hex]

/-- The loop body is the identity when `entryConfig` registers nothing. -/
theorem MT.registerEntry_of_none (jp : Str → JSOutcome) (fs : FS) (dir : Str)
    (acc : List (Str × List Str)) (e : Str × Bool)
    (h : MT.entryConfig jp fs dir e = none) :
    MT.registerEntry jp fs dir acc e = acc := by
  rw [MT.registerEntry_eq, h]

/-- The loop body performs a `Map.set` of the binding `entryConfig`
describes. -/
theorem MT.registerEntry_of_some (jp : Str → JSOutcome) (fs : FS) (dir : Str)
    (acc : List (Str × List Str)) (e : Str × Bool) (kv : Str × List Str)
    (h : MT.entryConfig jp fs dir e = some kv) :
    MT.registerEntry jp fs dir acc e = MT.mapSet acc kv.1 kv.2 := by
  rw [MT.registerEntry_eq, h]

/-- Characterization of `entryConfig` producing a binding. -/
theorem MT.entryConfig_eq_some_iff (jp : Str → JSOutcome) (fs : FS)
    (dir name : Str) (l : List Str) (e : Str × Bool) :
    MT.entryConfig jp fs dir e = some (name, l) ↔
      (e = (name, true)
        ∧ fs.existsPath [dir, name, str "_config.json"] = true
        ∧ ∃ c, fs.readRaw [dir, name, str "_config.json"] = some c
            ∧ jp c = JSOutcome.domains l) := by
  obtain ⟨en, eb⟩ := e
  constructor
  · intro h
    unfold MT.entryConfig at h
    split at h
    · rename_i hcond
      obtain ⟨hdir, hex⟩ := hcond
      split at h
      · rename_i c hr
        split at h
        · rename_i l2 hj
          simp only [Option.some.injEq, Prod.mk.injEq] at h
          obtain ⟨h1, h2⟩ := h
          subst h1
          subst h2
          simp only at hdir hex
          subst hdir
          exact ⟨rfl, hex, c, hr, hj⟩
        · exact absurd h (by simp)
      · exact absurd h (by simp)
    · exact absurd h (by simp)
  · rintro ⟨he, hex, c, hr, hj⟩
    obtain ⟨rfl, rfl⟩ : en = name ∧ eb = true := by
      simpa [Prod.mk.injEq] using he
    unfold MT.entryConfig
    rw [if_pos ⟨rfl, hex⟩, hr]
    simp [hj]

/-- Folding the `loadConfigs` loop body over entries with pairwise
distinct names appends exactly the bindings described by
`entryConfig`. -/
theorem MT.foldl_registerEntry (jp : Str → JSOutcome) (fs : FS) (dir : Str) :
    ∀ (entries : List (Str × Bool)) (acc : List (Str × List Str)),
      (entries.map Prod.fst).Nodup →
      (∀ x ∈ acc, x.1 ∉ entries.map Prod.fst) →
      entries.foldl (MT.registerEntry jp fs dir) acc
        = acc ++ entries.filterMap (MT.entryConfig jp fs dir) := by
  intro entries
  induction entries with
  | nil =>
    intro acc _ _
    simp
  | cons e rest ih =>
    intro acc hnd hdisj
    have hnd' : (rest.map Prod.fst).Nodup := by
      rw [List.map_cons] at hnd
      exact hnd.of_cons
    have hhead : e.1 ∉ rest.map Prod.fst := by
      rw [List.map_cons] at hnd
      exact (List.nodup_cons.mp hnd).1
    cases hce : MT.entryConfig jp fs dir e with
    | none =>
      rw [List.foldl_cons, MT.registerEntry_of_none jp fs dir acc e hce]
      have hfm : (e :: rest).filterMap (MT.entryConfig jp fs dir)
          = rest.filterMap (MT.entryConfig jp fs dir) := by
        simp [List.filterMap_cons, hce]
      rw [hfm]
      exact ih acc hnd' (fun x hx => by
        have := hdisj x hx
        rw [List.map_cons] at this
        exact fun hin => this (List.mem_cons_of_mem _ hin))
    | some kv =>
      have hk : kv.1 = e.1 := by
        have h2 : MT.entryConfig jp fs dir e = some (kv.1, kv.2) := by
          rw [hce]
        obtain ⟨hke, -⟩ := (MT.entryConfig_eq_some_iff jp fs dir kv.1 kv.2 e).mp h2
        rw [hke]
      have hset : MT.mapSet acc kv.1 kv.2 = acc ++ [kv] := by
        rw [MT.mapSet_append acc kv.1 kv.2 (fun x hx => by
          have := hdisj x hx
          rw [List.map_cons] at this
          rw [hk]
          exact fun hxk => this (by rw [← hxk]; exact List.mem_cons_self _ _))]
      have hfm : (e :: rest).filterMap (MT.entryConfig jp fs dir)
          = kv :: rest.filterMap (MT.entryConfig jp fs dir) := by
        simp [List.filterMap_cons, hce]
      rw [List.foldl_cons, MT.registerEntry_of_some jp fs dir acc e kv hce,
        hset, hfm]
      rw [ih (acc ++ [kv]) hnd' (fun x hx => by
        rcases List.mem_append.mp hx with hxa | hxkv
        · have := hdisj x hxa
          rw [List.map_cons] at this
          exact fun hin => this (List.mem_cons_of_mem _ hin)
        · have hxkv2 : x = kv := by simpa using hxkv
          rw [hxkv2, hk]
          exact hhead)]
      simp

/-- C2 counterexample: a top-level directory whose configuration parses
to an empty `domains` array IS registered (an empty JavaScript array is
truthy and passes `Array.isArray`), refuting the claim that only
non-empty domain lists are registered. -/
theorem C2_counterexample :
    jpEmptyCfg (str "ECFG") = JSOutcome.domains []
      ∧ (str "emptyset", ([] : List Str)) ∈ MT.computeConfigs jpEmptyCfg fsEmptyCfg dirC := by
  constructor
  · decide
  · decide

/-- C2 (amended): provided the top-level directory listing carries
pairwise distinct names, `loadConfigs` registers a directory under a
pattern list `l` iff the store root exists, the entry is listed as a
directory, its `_config.json` exists, its content is readable, and
parsing yields a `domains` array equal to `l` — possibly empty; a
directory whose configuration is missing, unreadable, unparseable, or
lacks an array `domains` field is silently skipped, and no partial
pattern list is registered. -/
theorem C2_loadConfigs_registration :
    ∀ (jp : Str → JSOutcome) (fs : FS) (dir name : Str) (l : List Str),
      ((fs.readdir [dir]).map Prod.fst).Nodup →
      ((name, l) ∈ MT.computeConfigs jp fs dir ↔
        (fs.existsPath [dir] = true
          ∧ (name, true) ∈ fs.readdir [dir]
          ∧ fs.existsPath [dir, name, str "_config.json"] = true
          ∧ ∃ c, fs.readRaw [dir, name, str "_config.json"] = some c
              ∧ jp c = JSOutcome.domains l)) := by
  intro jp fs dir name l hnd
  unfold MT.computeConfigs
  by_cases hex : fs.existsPath [dir] = true
  · have hbranch : (!fs.existsPath [dir]) = false := by
      rw [hex]
      rfl
    rw [hbranch]
    simp only [Bool.false_eq_true, if_false]
    rw [MT.foldl_registerEntry jp fs dir (fs.readdir [dir]) [] hnd
      (fun x hx => absurd hx (List.not_mem_nil x))]
    rw [List.nil_append, List.mem_filterMap]
    constructor
    · rintro ⟨e, he, hce⟩
      obtain ⟨rfl, hcfg, c, hr, hj⟩ :=
        (MT.entryConfig_eq_some_iff jp fs dir name l e).mp hce
      exact ⟨hex, he, hcfg, c, hr, hj⟩
    · rintro ⟨-, hmem, hcfg, c, hr, hj⟩
      exact ⟨(name, true), hmem,
        (MT.entryConfig_eq_some_iff jp fs dir name l (name, true)).mpr
          ⟨rfl, hcfg, c, hr, hj⟩⟩
  · have hb : fs.existsPath [dir] = false := by
      cases hx : fs.existsPath [dir] with
      | false => rfl
      | true => exact absurd hx hex
    have hbranch : (!fs.existsPath [dir]) = true := by
      rw [hb]
      rfl
    rw [hbranch]
    simp [hex]

/-- Witness for the amended C2 at the concrete empty-domains store. -/
theorem C2_loadConfigs_registration_witness :
    ((fsEmptyCfg.readdir [dirC]).map Prod.fst).Nodup
      ∧ ((str "emptyset", ([] : List Str)) ∈ MT.computeConfigs jpEmptyCfg fsEmptyCfg dirC ↔
        (fsEmptyCfg.existsPath [dirC] = true
          ∧ (str "emptyset", true) ∈ fsEmptyCfg.readdir [dirC]
          ∧ fsEmptyCfg.existsPath [dirC, str "emptyset", str "_config.json"] = true
          ∧ ∃ c, fsEmptyCfg.readRaw [dirC, str "emptyset", str "_config.json"] = some c
              ∧ jpEmptyCfg c = JSOutcome.domains [])) :=
  ⟨by decide,
   C2_loadConfigs_registration jpEmptyCfg fsEmptyCfg dirC (str "emptyset") []
     (by decide)⟩

/-- The truthiness-guarded push preserves documenthood of all elements:
it only ever appends a non-empty trimmed document. -/
theorem pushIfTruthy_good (acc : List Str) (o : Option Str)
    (hacc : ∀ e ∈ acc, GoodDoc e)
    (ho : ∀ s, o = some s → ∃ c, s = trim c) :
    ∀ e ∈ pushIfTruthy acc o, GoodDoc e := by
  intro e he
  cases o with
  | none => exact hacc e he
  | some s =>
    have he2 : e ∈ (if s.isEmpty = true then acc else acc ++ [s]) := he
    by_cases hs : s.isEmpty = true
    · rw [if_pos hs] at he2
      exact hacc e he2
    · rw [if_neg hs] at he2
      rcases List.mem_append.mp he2 with hin | hnew
      · exact hacc e hin
      · have he2 : e = s := by simpa using hnew
        subst he2
        refine ⟨?_, ho e rfl⟩
        intro hnil
        rw [hnil] at hs
        exact hs rfl

/-- Every element accumulated by the multi-tenant walk is a non-empty
trimmed document. -/
theorem MT.walk_good (fs : FS) (dir : Str) :
    ∀ (segs : List Str) (currentPath : Path) (acc : List Str),
      (∀ e ∈ acc, GoodDoc e) →
      ∀ e ∈ MT.walk fs dir segs currentPath acc, GoodDoc e := by
  intro segs
  induction segs with
  | nil =>
    intro currentPath acc hacc e he
    exact hacc e he
  | cons seg rest ih =>
    intro currentPath acc hacc e he
    simp only [MT.walk] at he
    cases hf : (if isDynamicSegment seg then [str "_dynamic", str "*"] else [seg]).find?
        (fun f => fs.existsPath (dir :: (currentPath ++ [f]))) with
    | some matchedFolder =>
      rw [hf] at he
      refine ih _ _ ?_ e he
      have h1 : ∀ x ∈ pushIfTruthy acc
          (loadFile fs dir ((currentPath ++ [matchedFolder]) ++ [str "_base.md"])),
          GoodDoc x :=
        pushIfTruthy_good _ _ hacc (fun s hs => loadFile_eq_trim _ _ _ _ hs)
      split
      · exact pushIfTruthy_good _ _ h1 (fun s hs => loadFile_eq_trim _ _ _ _ hs)
      · exact h1
    | none =>
      rw [hf] at he
      have he2 : e ∈ (if rest.isEmpty then
          pushIfTruthy acc (loadFile fs dir (currentPath ++ [seg ++ str ".md"]))
          else acc) := he
      split at he2
      · exact pushIfTruthy_good _ _ hacc
          (fun s hs => loadFile_eq_trim _ _ _ _ hs) e he2
      · exact hacc e he2

/-- The exact sibling-file step preserves documenthood. -/
theorem MT.exactStep_good (fs : FS) (dir instructionSet : Str)
    (segments : List Str) (acc : List Str)
    (hacc : ∀ e ∈ acc, GoodDoc e) :
    ∀ e ∈ MT.exactStep fs dir instructionSet segments acc, GoodDoc e := by
  intro e he
  unfold MT.exactStep at he
  split at he
  · exact hacc e he
  · rename_i lastSegment hg
    split at he
    · rename_i exactFile hl
      split at he
      · rename_i hcond
        rcases List.mem_append.mp he with hin | hnew
        · exact hacc e hin
        · have he2 : e = exactFile := by simpa using hnew
          subst he2
          simp only [Bool.and_eq_true, Bool.not_eq_true'] at hcond
          exact ⟨List.isEmpty_eq_false.mp hcond.1, loadFile_eq_trim _ _ _ _ hl⟩
      · exact hacc e he
    · exact hacc e he

/-- Joining a list whose head is non-empty yields a non-empty string. -/
theorem joinSep_ne_nil (sep : Str) (x : Str) (xs : List Str) (hx : x ≠ []) :
    joinSep sep (x :: xs) ≠ [] := by
  cases xs with
  | nil => exact hx
  | cons y ys =>
    intro h
    simp only [joinSep, List.append_eq_nil] at h
    exact hx h.1.1

/-- C10: a store file whose content trims to the empty string is pushed
exactly like an absent document; every document in a multi-tenant
resolution is non-empty, fixed by `trim`, and free of leading and
trailing whitespace; and the merged result is never the empty string —
it is either absent or non-empty text. -/
theorem C10_no_empty_blocks :
    ∀ (fs : FS) (dir instructionSet pathname : Str),
      (∀ e ∈ MT.compute fs dir instructionSet pathname,
        e ≠ [] ∧ trim e = e
          ∧ (∀ a, e.head? = some a → isJSWhitespace a = false)
          ∧ (∀ a, e.getLast? = some a → isJSWhitespace a = false))
      ∧ (∀ t, mergeResult (MT.compute fs dir instructionSet pathname) = some t →
          t ≠ [])
      ∧ (∀ (fsx : FS) (dirx : Str) (relx : Path) (c : Str) (acc : List Str),
          fsx.readRaw (dirx :: relx) = some c → trim c = [] →
          pushIfTruthy acc (loadFile fsx dirx relx) = acc) := by
  intro fs dir iSet pathname
  have hgood : ∀ e ∈ MT.compute fs dir iSet pathname, GoodDoc e := by
    unfold MT.compute
    exact MT.exactStep_good _ _ _ _ _
      (MT.walk_good fs dir _ _ _
        (pushIfTruthy_good _ _ (fun e he => absurd he (List.not_mem_nil e))
          (fun s hs => loadFile_eq_trim _ _ _ _ hs)))
  refine ⟨?_, ?_, ?_⟩
  · intro e he
    obtain ⟨hne, c, rfl⟩ := hgood e he
    exact ⟨hne, trim_trim c, trim_head_false c, trim_getLast_false c⟩
  · intro t ht
    unfold mergeResult at ht
    split at ht
    · exact absurd ht (by simp)
    · rename_i hne
      cases hdocs : MT.compute fs dir iSet pathname with
      | nil =>
        rw [hdocs] at hne
        exact absurd rfl hne
      | cons x xs =>
        rw [hdocs] at ht
        simp only [Option.some.injEq] at ht
        subst ht
        have hx : GoodDoc x := hgood x (by rw [hdocs]; exact List.mem_cons_self _ _)
        exact joinSep_ne_nil docSep x xs hx.1
  · intro fsx dirx relx c acc hr htrim
    unfold loadFile
    by_cases hex : fsx.existsPath (dirx :: relx) = true
    · rw [if_pos hex]
      simp [pushIfTruthy, hr, htrim]
    · rw [if_neg hex]
      rfl

/-- Witness for C10 at the concrete store `fsDup`, whose only document
(raw content with surrounding spaces) resolves to the trimmed,
non-empty block `S`. -/
theorem C10_no_empty_blocks_witness :
    (str "S") ∈ MT.compute fsDup dirC (str "acme") (str "/seo/_base")
      ∧ ((str "S") ≠ [] ∧ trim (str "S") = str "S"
        ∧ (∀ a, (str "S").head? = some a → isJSWhitespace a = false)
        ∧ (∀ a, (str "S").getLast? = some a → isJSWhitespace a = false)) :=
  ⟨by decide,
   (C10_no_empty_blocks fsDup dirC (str "acme") (str "/seo/_base")).1
     (str "S") (by decide)⟩

end AgentBrowse
